import Mathlib

/-!
Shallow embedding of the experiment-app API (Django REST backend):
the ownership-scoped querysets of `app/experiment/views.py`, the
attribute reconciliation and update logic of
`app/experiment/serializers.py`, and the database-wait loop of
`app/core/management/commands/wait_for_db.py`.

Users are identified by natural numbers, rows by natural-number ids.
The relational store is a record of lists of rows; the many-to-many
relations of an Experiment are carried as the lists of associated
attribute rows, with set-insert semantics for `add`.
-/

namespace ExperimentApp

/-- Modelled from the spec: `core/models.py` is not among the provided
sources.  A Tag or Ingredient row — "name (string), owning-user reference
(required)" — plus its row identifier.  Both attribute kinds share this
shape; they live in distinct tables of the store. -/
structure Attr where
  id : Nat
  user : Nat
  name : String
deriving DecidableEq

/-- Modelled from the spec: an Experiment row — title, time estimate,
price, link, description, owning-user reference, and its many-to-many
relations to Tag and Ingredient rows (held here as the lists of
associated rows; the `add` operation below keeps them duplicate-free). -/
structure Exp where
  id : Nat
  user : Nat
  title : String
  time_minutes : Nat
  price : Int
  link : String
  description : String
  tags : List Attr
  ingredients : List Attr
deriving DecidableEq

/-- The relational store: one table per model plus id counters for the
rows the ORM creates. -/
structure Db where
  experiments : List Exp
  tags : List Attr
  ingredients : List Attr
  nextExpId : Nat
  nextTagId : Nat
  nextIngId : Nat
deriving DecidableEq

/-- `Model.objects.filter(user=u, name=n).first()` — the lookup half of
Django's `get_or_create(user=auth_user, **{name})`. -/
def lookupAttr (rows : List Attr) (u : Nat) (n : String) : Option Attr :=
  rows.find? (fun t => t.user == u && t.name == n)

/-- Django's `objects.get_or_create(user=auth_user, name=n)` on an
attribute table: reuse the row matching owner and name when it exists,
otherwise append a fresh row with the next id.  Returns the resolved
row, the new table and the new id counter. -/
def getOrCreateAttr (rows : List Attr) (next : Nat) (u : Nat) (n : String) :
    Attr × List Attr × Nat :=
  match lookupAttr rows u n with
  | some t => (t, rows, next)
  | none => (⟨next, u, n⟩, rows ++ [⟨next, u, n⟩], next + 1)

/-- Many-to-many `add`: a set operation, a no-op when the row is already
associated. -/
def m2mAdd (assoc : List Attr) (t : Attr) : List Attr :=
  if t ∈ assoc then assoc else assoc ++ [t]

/-- `ExperimentDetailSerializer._get_or_create_tags`: for each submitted
tag name, get-or-create the Tag row scoped to the authenticated user and
associate it with the experiment. -/
def getOrCreateTags (db : Db) (u : Nat) (names : List String) (e : Exp) :
    Exp × Db :=
  match names with
  | [] => (e, db)
  | n :: rest =>
    let r := getOrCreateAttr db.tags db.nextTagId u n
    getOrCreateTags { db with tags := r.2.1, nextTagId := r.2.2 } u rest
      { e with tags := m2mAdd e.tags r.1 }

/-- `ExperimentDetailSerializer._get_or_create_ingredients`: identical to
the tag version but against the Ingredient table. -/
def getOrCreateIngredients (db : Db) (u : Nat) (names : List String) (e : Exp) :
    Exp × Db :=
  match names with
  | [] => (e, db)
  | n :: rest =>
    let r := getOrCreateAttr db.ingredients db.nextIngId u n
    getOrCreateIngredients { db with ingredients := r.2.1, nextIngId := r.2.2 } u rest
      { e with ingredients := m2mAdd e.ingredients r.1 }

/-- Write an experiment row back into its table (`instance.save()` /
the join-table writes of `tags.add`). -/
def saveExp (db : Db) (e : Exp) : Db :=
  { db with experiments := db.experiments.map (fun x => if x.id == e.id then e else x) }

/-- The validated payload of a create request.  `tags` and `ingredients`
default to `[]` when absent (`validated_data.pop('tags', [])`). -/
structure CreatePayload where
  title : String
  time_minutes : Nat
  price : Int
  link : String
  description : String
  tags : List String
  ingredients : List String

/-- `ExperimentViewSet.perform_create` + `ExperimentDetailSerializer.create`:
pop the attribute lists, persist the Experiment row with
`user=self.request.user`, then run the attribute reconciler for tags and
ingredients.  Returns the finished experiment and the new store. -/
def createExperiment (db : Db) (u : Nat) (p : CreatePayload) : Exp × Db :=
  let e0 : Exp :=
    { id := db.nextExpId, user := u, title := p.title,
      time_minutes := p.time_minutes, price := p.price, link := p.link,
      description := p.description, tags := [], ingredients := [] }
  let db0 := { db with
    experiments := db.experiments ++ [e0]
    nextExpId := db.nextExpId + 1 }
  let r1 := getOrCreateTags db0 u p.tags e0
  let r2 := getOrCreateIngredients r1.2 u p.ingredients r1.1
  (r2.1, saveExp r2.2 r2.1)

/-- The raw body of an update request: any subset of fields may be
present, including a `user` key the client should not be able to set. -/
structure RawUpdatePayload where
  user : Option Nat
  title : Option String
  time_minutes : Option Nat
  price : Option Int
  link : Option String
  description : Option String
  tags : Option (List String)
  ingredients : Option (List String)

/-- The validated payload: `ExperimentSerializer.Meta.fields` is
`['id', 'title', 'time_minutes', 'price', 'link', 'tags', 'ingredients']`
plus `'description'` on the detail serializer, so a `user` key in the
request body is not a declared field and never reaches
`validated_data`. -/
structure UpdatePayload where
  title : Option String
  time_minutes : Option Nat
  price : Option Int
  link : Option String
  description : Option String
  tags : Option (List String)
  ingredients : Option (List String)

/-- Serializer field validation: keep the declared writable fields, drop
everything else — in particular the `user` key. -/
def validatePayload (raw : RawUpdatePayload) : UpdatePayload :=
  { title := raw.title, time_minutes := raw.time_minutes, price := raw.price,
    link := raw.link, description := raw.description, tags := raw.tags,
    ingredients := raw.ingredients }

/-- `ExperimentDetailSerializer.update`: pop `tags` and `ingredients`
(`None` when absent); when present, `instance.tags.clear()` then
reconcile the submitted list; then `setattr` every remaining validated
field and `instance.save()`. -/
def updateExperiment (db : Db) (u : Nat) (e : Exp) (p : UpdatePayload) :
    Exp × Db :=
  let r1 := match p.tags with
    | none => (e, db)
    | some ts => getOrCreateTags db u ts { e with tags := [] }
  let r2 := match p.ingredients with
    | none => r1
    | some ing => getOrCreateIngredients r1.2 u ing { r1.1 with ingredients := [] }
  let e2 := r2.1
  let e3 := { e2 with
    title := p.title.getD e2.title,
    time_minutes := p.time_minutes.getD e2.time_minutes,
    price := p.price.getD e2.price,
    link := p.link.getD e2.link,
    description := p.description.getD e2.description }
  (e3, saveExp r2.2 e3)

/-- `ExperimentViewSet.get_queryset`:
`self.queryset.filter(user=self.request.user).order_by('-id')`. -/
def experimentList (db : Db) (u : Nat) : List Exp :=
  (db.experiments.filter (fun e => e.user == u)).insertionSort
    (fun a b => b.id ≤ a.id)

/-- `BaseExperimentAttrViewSet.get_queryset` for `TagViewSet`:
`self.queryset.filter(user=self.request.user).order_by('-name')`.
The request's query parameters (in particular `assigned_only`) are not
consulted anywhere in this method. -/
def tagList (db : Db) (u : Nat) : List Attr :=
  (db.tags.filter (fun t => t.user == u)).insertionSort
    (fun a b => b.name ≤ a.name)

/-- `BaseExperimentAttrViewSet.get_queryset` for `IngredientViewSet`. -/
def ingredientList (db : Db) (u : Nat) : List Attr :=
  (db.ingredients.filter (fun t => t.user == u)).insertionSort
    (fun a b => b.name ≤ a.name)

/-- DRF `get_object`: look the pk up inside the ownership-filtered
queryset; `none` is a 404 response. -/
def getObject (db : Db) (u : Nat) (i : Nat) : Option Exp :=
  (experimentList db u).find? (fun e => e.id == i)

/-- DRF `destroy`: 404 (`none`, store untouched) when `get_object`
misses, otherwise delete the row. -/
def destroyExperiment (db : Db) (u : Nat) (i : Nat) : Option Db :=
  (getObject db u i).map (fun e =>
    { db with experiments := db.experiments.filter (fun x => x.id != e.id) })

/-- DRF `update`/`partial_update` through the viewset: 404 (`none`,
store untouched) when `get_object` misses, otherwise validate the body
and run the serializer's `update`. -/
def updateViaApi (db : Db) (u : Nat) (i : Nat) (raw : RawUpdatePayload) :
    Option (Exp × Db) :=
  (getObject db u i).map (fun e => updateExperiment db u e (validatePayload raw))

/-- `get_object` on the Tag queryset (used by the attribute update and
destroy endpoints). -/
def getTagObject (db : Db) (u : Nat) (i : Nat) : Option Attr :=
  (tagList db u).find? (fun t => t.id == i)

/-- `destroy` on the Tag endpoint. -/
def destroyTag (db : Db) (u : Nat) (i : Nat) : Option Db :=
  (getTagObject db u i).map (fun t =>
    { db with tags := db.tags.filter (fun x => x.id != t.id) })

/-- The observable store events of `ExperimentDetailSerializer.create`,
in the order the method performs them. -/
inductive Event where
  | persistParent : Event
  | reconcileTag : String → Event
  | reconcileIngredient : String → Event
deriving DecidableEq

/-- The event trace of `ExperimentDetailSerializer.create`, statement by
statement: pop the attribute lists, `Experiment.objects.create(**validated_data)`
(persisting the parent row), then `_get_or_create_tags`, then
`_get_or_create_ingredients`. -/
def createEvents (p : CreatePayload) : List Event :=
  [Event.persistParent] ++ p.tags.map Event.reconcileTag
    ++ p.ingredients.map Event.reconcileIngredient

/-- Whether an event is a step of the Attribute Reconciler. -/
def Event.isReconcile : Event → Bool
  | Event.persistParent => false
  | Event.reconcileTag _ => true
  | Event.reconcileIngredient _ => true

/-- `true` when every reconciler event of the trace happens strictly
before every persistence of the parent record: at the first
non-reconciler event, no reconciler event may remain. -/
def reconcileBeforePersist (evs : List Event) : Bool :=
  ((evs.dropWhile Event.isReconcile).filter Event.isReconcile).isEmpty

/-- `Command.handle` of `wait_for_db`, with the environment abstracted
as the outcome of `self.check(databases=['default'])` on each attempt
(`true` = the check succeeds, `false` = it raises `Psycopg2OpError` or
`OperationalError`).  The loop catches the error, sleeps one second and
retries; `fuel` bounds how many attempts we unroll, and the returned
value is the index of the succeeding attempt — which equals the number
of one-second sleeps performed before it. -/
def waitForDb (check : Nat → Bool) : Nat → Nat → Option Nat
  | _, 0 => none
  | attempt, fuel + 1 =>
    if check attempt then some attempt
    else waitForDb check (attempt + 1) fuel

/-! ### Basic lemmas about lookup, get-or-create and the m2m add -/

theorem lookupAttr_user_name {rows : List Attr} {u : Nat} {n : String} {t : Attr}
    (h : lookupAttr rows u n = some t) : t.user = u ∧ t.name = n := by
  have hp := List.find?_some h
  simpa [Bool.and_eq_true] using hp

theorem lookupAttr_append_of_some {rows s : List Attr} {u : Nat} {n : String}
    {t : Attr} (h : lookupAttr rows u n = some t) :
    lookupAttr (rows ++ s) u n = some t := by
  unfold lookupAttr at h ⊢
  rw [List.find?_append, h]
  rfl

theorem getOrCreateAttr_fst_user_name (rows : List Attr) (next u : Nat)
    (n : String) :
    (getOrCreateAttr rows next u n).1.user = u
    ∧ (getOrCreateAttr rows next u n).1.name = n := by
  unfold getOrCreateAttr
  cases h : lookupAttr rows u n with
  | none => simp
  | some t => simpa using lookupAttr_user_name h

theorem getOrCreateAttr_rows_append (rows : List Attr) (next u : Nat)
    (n : String) : ∃ s, (getOrCreateAttr rows next u n).2.1 = rows ++ s := by
  unfold getOrCreateAttr
  cases h : lookupAttr rows u n with
  | none => exact ⟨[⟨next, u, n⟩], rfl⟩
  | some t => exact ⟨[], by simp⟩

theorem lookupAttr_getOrCreateAttr (rows : List Attr) (next u : Nat)
    (n : String) :
    lookupAttr (getOrCreateAttr rows next u n).2.1 u n
      = some (getOrCreateAttr rows next u n).1 := by
  unfold getOrCreateAttr
  cases h : lookupAttr rows u n with
  | some t => simpa using h
  | none =>
    simp only
    unfold lookupAttr at h ⊢
    rw [List.find?_append, h]
    simp

theorem m2mAdd_mem_self (assoc : List Attr) (t : Attr) : t ∈ m2mAdd assoc t := by
  unfold m2mAdd
  split
  · assumption
  · simp

theorem m2mAdd_mem_mono {assoc : List Attr} {t x : Attr} (h : x ∈ assoc) :
    x ∈ m2mAdd assoc t := by
  unfold m2mAdd
  split
  · exact h
  · simp [h]

theorem m2mAdd_append (assoc : List Attr) (t : Attr) :
    ∃ s, m2mAdd assoc t = assoc ++ s := by
  unfold m2mAdd
  split
  · exact ⟨[], by simp⟩
  · exact ⟨[t], rfl⟩

theorem m2mAdd_mem_elim {assoc : List Attr} {t x : Attr}
    (h : x ∈ m2mAdd assoc t) : x ∈ assoc ∨ x = t := by
  unfold m2mAdd at h
  split at h
  · exact Or.inl h
  · simpa using h

theorem m2mAdd_of_mem {assoc : List Attr} {t : Attr} (h : t ∈ assoc) :
    m2mAdd assoc t = assoc := by
  unfold m2mAdd
  exact if_pos h

theorem m2mAdd_nodup {assoc : List Attr} {t : Attr} (h : assoc.Nodup) :
    (m2mAdd assoc t).Nodup := by
  unfold m2mAdd
  split
  · exact h
  · next hni =>
    have hs : (assoc ++ [t]).Nodup := by
      rw [List.nodup_append]
      exact ⟨h, List.nodup_singleton t, by
        intro x hx hxt
        rw [List.mem_singleton] at hxt
        exact hni (hxt ▸ hx)⟩
    exact hs

/-! ### Structural lemmas about the tag reconciler -/

theorem getOrCreateTags_frame (u : Nat) :
    ∀ (names : List String) (db : Db) (e : Exp),
      (getOrCreateTags db u names e).2.experiments = db.experiments
      ∧ (getOrCreateTags db u names e).2.ingredients = db.ingredients
      ∧ (getOrCreateTags db u names e).2.nextExpId = db.nextExpId
      ∧ (getOrCreateTags db u names e).2.nextIngId = db.nextIngId
      ∧ (getOrCreateTags db u names e).1.id = e.id
      ∧ (getOrCreateTags db u names e).1.user = e.user
      ∧ (getOrCreateTags db u names e).1.title = e.title
      ∧ (getOrCreateTags db u names e).1.time_minutes = e.time_minutes
      ∧ (getOrCreateTags db u names e).1.price = e.price
      ∧ (getOrCreateTags db u names e).1.link = e.link
      ∧ (getOrCreateTags db u names e).1.description = e.description
      ∧ (getOrCreateTags db u names e).1.ingredients = e.ingredients
  | [], db, e => by simp [getOrCreateTags]
  | n :: rest, db, e => by
    simp only [getOrCreateTags]
    simpa using getOrCreateTags_frame u rest _ _

theorem getOrCreateTags_tags_append (u : Nat) :
    ∀ (names : List String) (db : Db) (e : Exp),
      ∃ s, (getOrCreateTags db u names e).2.tags = db.tags ++ s
  | [], db, e => ⟨[], by simp [getOrCreateTags]⟩
  | n :: rest, db, e => by
    simp only [getOrCreateTags]
    obtain ⟨s0, h0⟩ := getOrCreateAttr_rows_append db.tags db.nextTagId u n
    obtain ⟨s1, h1⟩ := getOrCreateTags_tags_append u rest
      { db with
        tags := (getOrCreateAttr db.tags db.nextTagId u n).2.1
        nextTagId := (getOrCreateAttr db.tags db.nextTagId u n).2.2 }
      { e with tags := m2mAdd e.tags (getOrCreateAttr db.tags db.nextTagId u n).1 }
    exact ⟨s0 ++ s1, by rw [h1]; simp [h0]⟩

theorem getOrCreateTags_assoc_append (u : Nat) :
    ∀ (names : List String) (db : Db) (e : Exp),
      ∃ s, (getOrCreateTags db u names e).1.tags = e.tags ++ s
  | [], db, e => ⟨[], by simp [getOrCreateTags]⟩
  | n :: rest, db, e => by
    simp only [getOrCreateTags]
    obtain ⟨s0, h0⟩ := m2mAdd_append e.tags (getOrCreateAttr db.tags db.nextTagId u n).1
    obtain ⟨s1, h1⟩ := getOrCreateTags_assoc_append u rest
      { db with
        tags := (getOrCreateAttr db.tags db.nextTagId u n).2.1
        nextTagId := (getOrCreateAttr db.tags db.nextTagId u n).2.2 }
      { e with tags := m2mAdd e.tags (getOrCreateAttr db.tags db.nextTagId u n).1 }
    exact ⟨s0 ++ s1, by rw [h1]; simp [h0]⟩

theorem getOrCreateTags_stable (u : Nat) (m : String) (t : Attr) :
    ∀ (names : List String) (db : Db) (e : Exp),
      lookupAttr db.tags u m = some t → t ∈ e.tags →
      lookupAttr (getOrCreateTags db u names e).2.tags u m = some t
      ∧ t ∈ (getOrCreateTags db u names e).1.tags
  | [], db, e, hl, hm => by simpa [getOrCreateTags] using ⟨hl, hm⟩
  | n :: rest, db, e, hl, hm => by
    simp only [getOrCreateTags]
    obtain ⟨s0, h0⟩ := getOrCreateAttr_rows_append db.tags db.nextTagId u n
    refine getOrCreateTags_stable u m t rest _ _ ?_ ?_
    · show lookupAttr (getOrCreateAttr db.tags db.nextTagId u n).2.1 u m = some t
      rw [h0]
      exact lookupAttr_append_of_some hl
    · exact m2mAdd_mem_mono hm

theorem getOrCreateTags_covers (u : Nat) :
    ∀ (names : List String) (db : Db) (e : Exp) (n : String), n ∈ names →
      ∃ t, lookupAttr (getOrCreateTags db u names e).2.tags u n = some t
        ∧ t ∈ (getOrCreateTags db u names e).1.tags
  | [], _, _, n, hn => absurd hn (List.not_mem_nil n)
  | n' :: rest, db, e, n, hn => by
    rcases List.mem_cons.mp hn with heq | hrest
    · subst heq
      simp only [getOrCreateTags]
      refine ⟨(getOrCreateAttr db.tags db.nextTagId u n).1, ?_⟩
      exact getOrCreateTags_stable u n _ rest _ _
        (lookupAttr_getOrCreateAttr db.tags db.nextTagId u n)
        (m2mAdd_mem_self _ _)
    · simp only [getOrCreateTags]
      exact getOrCreateTags_covers u rest _ _ n hrest

theorem getOrCreateTags_sound (u : Nat) (outer : List String) :
    ∀ (names : List String) (db : Db) (e : Exp),
      (∀ t ∈ e.tags, t.user = u ∧ t.name ∈ outer) →
      (∀ n ∈ names, n ∈ outer) →
      ∀ t ∈ (getOrCreateTags db u names e).1.tags, t.user = u ∧ t.name ∈ outer
  | [], db, e, he, _, t, ht => he t (by simpa [getOrCreateTags] using ht)
  | n :: rest, db, e, he, hn, t, ht => by
    simp only [getOrCreateTags] at ht
    refine getOrCreateTags_sound u outer rest _ _ ?_ ?_ t ht
    · intro x hx
      rcases m2mAdd_mem_elim hx with hold | hnew
      · exact he x hold
      · subst hnew
        obtain ⟨hu, hna⟩ := getOrCreateAttr_fst_user_name db.tags db.nextTagId u n
        refine ⟨hu, ?_⟩
        rw [hna]
        exact hn n (List.mem_cons_self n rest)
    · intro x hx
      exact hn x (List.mem_cons_of_mem n hx)

theorem getOrCreateTags_nodup (u : Nat) :
    ∀ (names : List String) (db : Db) (e : Exp),
      e.tags.Nodup → (getOrCreateTags db u names e).1.tags.Nodup
  | [], db, e, h => by simpa [getOrCreateTags] using h
  | n :: rest, db, e, h => by
    simp only [getOrCreateTags]
    exact getOrCreateTags_nodup u rest _ _ (m2mAdd_nodup h)

theorem getOrCreateTags_append_names (u : Nat) :
    ∀ (xs ys : List String) (db : Db) (e : Exp),
      getOrCreateTags db u (xs ++ ys) e
        = getOrCreateTags (getOrCreateTags db u xs e).2 u ys
            (getOrCreateTags db u xs e).1
  | [], ys, db, e => by simp [getOrCreateTags]
  | x :: xs, ys, db, e => by
    simp only [List.cons_append, getOrCreateTags]
    exact getOrCreateTags_append_names u xs ys _ _

theorem getOrCreateTags_single_noop {db : Db} {u : Nat} {n : String} {e : Exp}
    {t : Attr} (h1 : lookupAttr db.tags u n = some t) (h2 : t ∈ e.tags) :
    getOrCreateTags db u [n] e = (e, db) := by
  simp only [getOrCreateTags, getOrCreateAttr, h1, m2mAdd_of_mem h2]

/-! ### Structural lemmas about the ingredient reconciler (mirror) -/

theorem getOrCreateIngredients_frame (u : Nat) :
    ∀ (names : List String) (db : Db) (e : Exp),
      (getOrCreateIngredients db u names e).2.experiments = db.experiments
      ∧ (getOrCreateIngredients db u names e).2.tags = db.tags
      ∧ (getOrCreateIngredients db u names e).2.nextExpId = db.nextExpId
      ∧ (getOrCreateIngredients db u names e).2.nextTagId = db.nextTagId
      ∧ (getOrCreateIngredients db u names e).1.id = e.id
      ∧ (getOrCreateIngredients db u names e).1.user = e.user
      ∧ (getOrCreateIngredients db u names e).1.title = e.title
      ∧ (getOrCreateIngredients db u names e).1.time_minutes = e.time_minutes
      ∧ (getOrCreateIngredients db u names e).1.price = e.price
      ∧ (getOrCreateIngredients db u names e).1.link = e.link
      ∧ (getOrCreateIngredients db u names e).1.description = e.description
      ∧ (getOrCreateIngredients db u names e).1.tags = e.tags
  | [], db, e => by simp [getOrCreateIngredients]
  | n :: rest, db, e => by
    simp only [getOrCreateIngredients]
    simpa using getOrCreateIngredients_frame u rest _ _

theorem getOrCreateIngredients_ings_append (u : Nat) :
    ∀ (names : List String) (db : Db) (e : Exp),
      ∃ s, (getOrCreateIngredients db u names e).2.ingredients = db.ingredients ++ s
  | [], db, e => ⟨[], by simp [getOrCreateIngredients]⟩
  | n :: rest, db, e => by
    simp only [getOrCreateIngredients]
    obtain ⟨s0, h0⟩ := getOrCreateAttr_rows_append db.ingredients db.nextIngId u n
    obtain ⟨s1, h1⟩ := getOrCreateIngredients_ings_append u rest
      { db with
        ingredients := (getOrCreateAttr db.ingredients db.nextIngId u n).2.1
        nextIngId := (getOrCreateAttr db.ingredients db.nextIngId u n).2.2 }
      { e with ingredients := m2mAdd e.ingredients (getOrCreateAttr db.ingredients db.nextIngId u n).1 }
    exact ⟨s0 ++ s1, by rw [h1]; simp [h0]⟩

theorem getOrCreateIngredients_stable (u : Nat) (m : String) (t : Attr) :
    ∀ (names : List String) (db : Db) (e : Exp),
      lookupAttr db.ingredients u m = some t → t ∈ e.ingredients →
      lookupAttr (getOrCreateIngredients db u names e).2.ingredients u m = some t
      ∧ t ∈ (getOrCreateIngredients db u names e).1.ingredients
  | [], db, e, hl, hm => by simpa [getOrCreateIngredients] using ⟨hl, hm⟩
  | n :: rest, db, e, hl, hm => by
    simp only [getOrCreateIngredients]
    obtain ⟨s0, h0⟩ := getOrCreateAttr_rows_append db.ingredients db.nextIngId u n
    refine getOrCreateIngredients_stable u m t rest _ _ ?_ ?_
    · show lookupAttr (getOrCreateAttr db.ingredients db.nextIngId u n).2.1 u m = some t
      rw [h0]
      exact lookupAttr_append_of_some hl
    · exact m2mAdd_mem_mono hm

theorem getOrCreateIngredients_covers (u : Nat) :
    ∀ (names : List String) (db : Db) (e : Exp) (n : String), n ∈ names →
      ∃ t, lookupAttr (getOrCreateIngredients db u names e).2.ingredients u n = some t
        ∧ t ∈ (getOrCreateIngredients db u names e).1.ingredients
  | [], _, _, n, hn => absurd hn (List.not_mem_nil n)
  | n' :: rest, db, e, n, hn => by
    rcases List.mem_cons.mp hn with heq | hrest
    · subst heq
      simp only [getOrCreateIngredients]
      refine ⟨(getOrCreateAttr db.ingredients db.nextIngId u n).1, ?_⟩
      exact getOrCreateIngredients_stable u n _ rest _ _
        (lookupAttr_getOrCreateAttr db.ingredients db.nextIngId u n)
        (m2mAdd_mem_self _ _)
    · simp only [getOrCreateIngredients]
      exact getOrCreateIngredients_covers u rest _ _ n hrest

theorem getOrCreateIngredients_sound (u : Nat) (outer : List String) :
    ∀ (names : List String) (db : Db) (e : Exp),
      (∀ t ∈ e.ingredients, t.user = u ∧ t.name ∈ outer) →
      (∀ n ∈ names, n ∈ outer) →
      ∀ t ∈ (getOrCreateIngredients db u names e).1.ingredients, t.user = u ∧ t.name ∈ outer
  | [], db, e, he, _, t, ht => he t (by simpa [getOrCreateIngredients] using ht)
  | n :: rest, db, e, he, hn, t, ht => by
    simp only [getOrCreateIngredients] at ht
    refine getOrCreateIngredients_sound u outer rest _ _ ?_ ?_ t ht
    · intro x hx
      rcases m2mAdd_mem_elim hx with hold | hnew
      · exact he x hold
      · subst hnew
        obtain ⟨hu, hna⟩ := getOrCreateAttr_fst_user_name db.ingredients db.nextIngId u n
        refine ⟨hu, ?_⟩
        rw [hna]
        exact hn n (List.mem_cons_self n rest)
    · intro x hx
      exact hn x (List.mem_cons_of_mem n hx)

/-! ### Claim C10: wait_for_db -/

theorem waitForDb_from (check : Nat → Bool) :
    ∀ (fuel k a : Nat), check (a + k) = true →
      (∀ j, j < k → check (a + j) = false) → k < fuel →
      waitForDb check a fuel = some (a + k)
  | 0, k, _, _, _, hf => absurd hf (Nat.not_lt_zero k)
  | fuel + 1, 0, a, hk, _, _ => by
    rw [Nat.add_zero] at hk
    simp [waitForDb, hk]
  | fuel + 1, k + 1, a, hk, hmin, hf => by
    have h0 : check a = false := by simpa using hmin 0 (Nat.succ_pos k)
    have hstep := waitForDb_from check fuel k (a + 1)
      (by rw [show a + 1 + k = a + (k + 1) by omega]; exact hk)
      (by
        intro j hj
        rw [show a + 1 + j = a + (j + 1) by omega]
        exact hmin (j + 1) (by omega))
      (by omega)
    simp only [waitForDb, h0, Bool.false_eq_true, if_false]
    rw [hstep]
    rw [show a + 1 + k = a + (k + 1) by omega]

/-- C10: `wait_for_db` catches every database `OperationalError` (each failed
check is followed by a one-second sleep and a retry, never a propagated
error), and returns normally exactly at the first attempt whose check
succeeds: if attempt `k` is the first success and at least `k + 1` attempts
are unrolled, the command terminates, reporting success after `k` sleeps. -/
theorem wait_for_db_terminates (check : Nat → Bool) (k fuel : Nat)
    (hk : check k = true) (hmin : ∀ j, j < k → check j = false)
    (hfuel : k < fuel) :
    waitForDb check 0 fuel = some k := by
  have h := waitForDb_from check fuel k 0 (by simpa using hk)
    (by intro j hj; simpa using hmin j hj) hfuel
  simpa using h

theorem wait_for_db_terminates_witness :
    waitForDb (fun i => decide (i = 2)) 0 4 = some 2 :=
  wait_for_db_terminates (fun i => decide (i = 2)) 2 4 (by decide)
    (by decide) (by decide)

/-! ### Claim C2: order of reconciliation and persistence in create -/

/-- C2 counterexample: the create request of the repo's test
`test_create_experiment_with_new_tag` carries attribute descriptors, yet in
the trace of `ExperimentDetailSerializer.create` the parent row is persisted
(`Experiment.objects.create`) before any reconciliation happens, so the
reconciler does not run before persistence. -/
theorem create_reconciler_not_before_persist :
    (CreatePayload.tags
        ⟨"Emotion Experiemnt", 30, 30, "", "", ["female", "sleep"], []⟩ ≠ [])
    ∧ reconcileBeforePersist (createEvents
        ⟨"Emotion Experiemnt", 30, 30, "", "", ["female", "sleep"], []⟩) = false := by
  constructor
  · decide
  · decide

/-- C2 (amended): for every Experiment create request the parent Experiment
record is persisted first — it is the first event of the create trace and is
persisted exactly once — and every step of the Attribute Reconciler runs
after it. -/
theorem create_persists_parent_before_reconciler (p : CreatePayload) :
    (createEvents p).head? = some Event.persistParent
    ∧ (createEvents p).count Event.persistParent = 1
    ∧ ((createEvents p).drop 1).all Event.isReconcile = true := by
  refine ⟨rfl, ?_, ?_⟩
  · simp only [createEvents, List.cons_append, List.count_cons, List.count_append]
    have h1 : (p.tags.map Event.reconcileTag).count Event.persistParent = 0 := by
      rw [List.count_eq_zero]
      intro h
      rcases List.mem_map.mp h with ⟨x, _, hx⟩
      exact Event.noConfusion hx
    have h2 : (p.ingredients.map Event.reconcileIngredient).count Event.persistParent = 0 := by
      rw [List.count_eq_zero]
      intro h
      rcases List.mem_map.mp h with ⟨x, _, hx⟩
      exact Event.noConfusion hx
    simp [h1, h2, List.count_nil]
  · simp only [createEvents, List.cons_append, List.drop_succ_cons, List.drop_zero]
    rw [List.all_eq_true]
    intro x hx
    rcases List.mem_append.mp hx with h | h
    · rcases List.mem_map.mp h with ⟨y, _, hy⟩
      rw [← hy]
      rfl
    · rcases List.mem_map.mp h with ⟨y, _, hy⟩
      rw [← hy]
      rfl

/-! ### Claim C4: get-or-create reuse, creation, per-user separation -/

/-- C4: for an attribute descriptor submitted with an Experiment write
(`_get_or_create_tags` on the Tag table, `_get_or_create_ingredients` on the
Ingredient table, both through `getOrCreateAttr`): a row matching
(owner, name) is reused and the table does not grow; a name with no matching
row for this owner yields a new row owned by the requester with that name and
the table grows by one; and a different user submitting the same name
resolves to a distinct row. -/
theorem get_or_create_reuse_create_separate (rows : List Attr)
    (next u v : Nat) (name name2 : String) (t : Attr)
    (h1 : lookupAttr rows u name = some t)
    (h2 : lookupAttr rows u name2 = none)
    (huv : u ≠ v) :
    (getOrCreateAttr rows next u name).1 = t
    ∧ (getOrCreateAttr rows next u name).2.1 = rows
    ∧ (getOrCreateAttr rows next u name).2.1.length = rows.length
    ∧ (getOrCreateAttr rows next u name2).1.user = u
    ∧ (getOrCreateAttr rows next u name2).1.name = name2
    ∧ (getOrCreateAttr rows next u name2).2.1.length = rows.length + 1
    ∧ (getOrCreateAttr rows next v name).1.user = v
    ∧ (getOrCreateAttr rows next v name).1 ≠ (getOrCreateAttr rows next u name).1 := by
  obtain ⟨hvu, -⟩ := getOrCreateAttr_fst_user_name rows next v name
  obtain ⟨huu, -⟩ := getOrCreateAttr_fst_user_name rows next u name
  refine ⟨?_, ?_, ?_, ?_, ?_, ?_, hvu, ?_⟩
  · simp [getOrCreateAttr, h1]
  · simp [getOrCreateAttr, h1]
  · simp [getOrCreateAttr, h1]
  · simp [getOrCreateAttr, h2]
  · simp [getOrCreateAttr, h2]
  · simp [getOrCreateAttr, h2]
  · intro heq
    exact huv (by rw [← huu, ← heq, hvu])

theorem get_or_create_reuse_create_separate_witness :
    lookupAttr [Attr.mk 1 0 "BNU"] 0 "BNU" = some (Attr.mk 1 0 "BNU")
    ∧ lookupAttr [Attr.mk 1 0 "BNU"] 0 "trainning" = none
    ∧ ((getOrCreateAttr [Attr.mk 1 0 "BNU"] 2 0 "BNU").1 = Attr.mk 1 0 "BNU"
      ∧ (getOrCreateAttr [Attr.mk 1 0 "BNU"] 2 0 "BNU").2.1 = [Attr.mk 1 0 "BNU"]
      ∧ (getOrCreateAttr [Attr.mk 1 0 "BNU"] 2 0 "BNU").2.1.length
          = [Attr.mk 1 0 "BNU"].length
      ∧ (getOrCreateAttr [Attr.mk 1 0 "BNU"] 2 0 "trainning").1.user = 0
      ∧ (getOrCreateAttr [Attr.mk 1 0 "BNU"] 2 0 "trainning").1.name = "trainning"
      ∧ (getOrCreateAttr [Attr.mk 1 0 "BNU"] 2 0 "trainning").2.1.length
          = [Attr.mk 1 0 "BNU"].length + 1
      ∧ (getOrCreateAttr [Attr.mk 1 0 "BNU"] 2 1 "BNU").1.user = 1
      ∧ (getOrCreateAttr [Attr.mk 1 0 "BNU"] 2 1 "BNU").1
          ≠ (getOrCreateAttr [Attr.mk 1 0 "BNU"] 2 0 "BNU").1) :=
  ⟨by decide, by decide,
    get_or_create_reuse_create_separate [Attr.mk 1 0 "BNU"] 2 0 1 "BNU"
      "trainning" (Attr.mk 1 0 "BNU") (by decide) (by decide) (by decide)⟩

/-! ### Claim C6: duplicate names in one submitted list -/

/-- C6: a duplicate occurrence of a name already in the submitted list is a
complete no-op for `_get_or_create_tags` — it resolves to the same reused row
and both the store and the association set are unchanged — and the
association list stays duplicate-free, so the row is associated exactly
once. -/
theorem duplicate_names_associate_once (db : Db) (u : Nat) (e : Exp)
    (names : List String) (n : String) (hn : n ∈ names)
    (hnd : e.tags.Nodup) :
    getOrCreateTags db u (names ++ [n]) e = getOrCreateTags db u names e
    ∧ (getOrCreateTags db u names e).1.tags.Nodup := by
  constructor
  · rw [getOrCreateTags_append_names]
    obtain ⟨t, hl, hm⟩ := getOrCreateTags_covers u names db e n hn
    simpa using getOrCreateTags_single_noop hl hm
  · exact getOrCreateTags_nodup u names db e hnd

theorem duplicate_names_associate_once_witness :
    ("sleep" ∈ ["female", "sleep"]
    ∧ (List.Nodup ([] : List Attr)))
    ∧ (getOrCreateTags ⟨[], [], [], 1, 1, 1⟩ 0 (["female", "sleep"] ++ ["sleep"])
          ⟨5, 0, "t", 1, 2, "", "", [], []⟩
        = getOrCreateTags ⟨[], [], [], 1, 1, 1⟩ 0 ["female", "sleep"]
          ⟨5, 0, "t", 1, 2, "", "", [], []⟩
    ∧ (getOrCreateTags ⟨[], [], [], 1, 1, 1⟩ 0 ["female", "sleep"]
        ⟨5, 0, "t", 1, 2, "", "", [], []⟩).1.tags.Nodup) :=
  ⟨⟨by decide, by decide⟩,
    duplicate_names_associate_once ⟨[], [], [], 1, 1, 1⟩ 0
      ⟨5, 0, "t", 1, 2, "", "", [], []⟩ ["female", "sleep"] "sleep"
      (by decide) (by decide)⟩

/-! ### Claim C7: disassociation never deletes attribute rows -/

/-- C7: `ExperimentDetailSerializer.update` — whether it clears, replaces or
leaves the associations — only ever appends to the Tag and Ingredient tables:
every attribute row present before the update is still present after it,
referenced or not. -/
theorem update_never_deletes_attribute_rows (db : Db) (u : Nat) (e : Exp)
    (p : UpdatePayload) :
    (∃ s, (updateExperiment db u e p).2.tags = db.tags ++ s)
    ∧ (∃ s, (updateExperiment db u e p).2.ingredients = db.ingredients ++ s) := by
  cases hpt : p.tags with
  | none =>
    cases hpi : p.ingredients with
    | none =>
      simp only [updateExperiment, hpt, hpi, saveExp]
      exact ⟨⟨[], by simp⟩, ⟨[], by simp⟩⟩
    | some ing =>
      simp only [updateExperiment, hpt, hpi, saveExp]
      constructor
      · exact ⟨[], by simp [(getOrCreateIngredients_frame u ing db _).2.1]⟩
      · obtain ⟨s, hs⟩ := getOrCreateIngredients_ings_append u ing db
          { e with ingredients := [] }
        exact ⟨s, by simpa using hs⟩
  | some ts =>
    cases hpi : p.ingredients with
    | none =>
      simp only [updateExperiment, hpt, hpi, saveExp]
      constructor
      · obtain ⟨s, hs⟩ := getOrCreateTags_tags_append u ts db { e with tags := [] }
        exact ⟨s, by simpa using hs⟩
      · exact ⟨[], by simp [(getOrCreateTags_frame u ts db _).2.1]⟩
    | some ing =>
      simp only [updateExperiment, hpt, hpi, saveExp]
      constructor
      · obtain ⟨s, hs⟩ := getOrCreateTags_tags_append u ts db { e with tags := [] }
        rw [(getOrCreateIngredients_frame u ing _ _).2.1]
        exact ⟨s, by simpa using hs⟩
      · obtain ⟨s, hs⟩ := getOrCreateIngredients_ings_append u ing
          (getOrCreateTags db u ts { e with tags := [] }).2
          { (getOrCreateTags db u ts { e with tags := [] }).1 with ingredients := [] }
        rw [(getOrCreateTags_frame u ts db { e with tags := [] }).2.1] at hs
        exact ⟨s, by simpa using hs⟩

/-! ### Claim C8: owner set at creation, immutable afterwards -/

theorem createExperiment_user (db : Db) (u : Nat) (p : CreatePayload) :
    (createExperiment db u p).1.user = u := by
  unfold createExperiment
  rw [(getOrCreateIngredients_frame u p.ingredients _ _).2.2.2.2.2.1]
  rw [(getOrCreateTags_frame u p.tags _ _).2.2.2.2.2.1]

theorem updateExperiment_user_id (db : Db) (u : Nat) (e : Exp)
    (p : UpdatePayload) :
    (updateExperiment db u e p).1.user = e.user
    ∧ (updateExperiment db u e p).1.id = e.id := by
  cases hpt : p.tags with
  | none =>
    cases hpi : p.ingredients with
    | none =>
      simp [updateExperiment, hpt, hpi]
    | some ing =>
      simp only [updateExperiment, hpt, hpi]
      obtain ⟨-, -, -, -, hid, huser, -, -, -, -, -, -⟩ :=
        getOrCreateIngredients_frame u ing db { e with ingredients := [] }
      exact ⟨huser, hid⟩
  | some ts =>
    cases hpi : p.ingredients with
    | none =>
      simp only [updateExperiment, hpt, hpi]
      obtain ⟨-, -, -, -, hid, huser, -, -, -, -, -, -⟩ :=
        getOrCreateTags_frame u ts db { e with tags := [] }
      exact ⟨huser, hid⟩
    | some ing =>
      simp only [updateExperiment, hpt, hpi]
      obtain ⟨-, -, -, -, hid2, huser2, -, -, -, -, -, -⟩ :=
        getOrCreateIngredients_frame u ing
          (getOrCreateTags db u ts { e with tags := [] }).2
          { (getOrCreateTags db u ts { e with tags := [] }).1 with ingredients := [] }
      obtain ⟨-, -, -, -, hid1, huser1, -, -, -, -, -, -⟩ :=
        getOrCreateTags_frame u ts db { e with tags := [] }
      exact ⟨huser2.trans huser1, hid2.trans hid1⟩

/-- C8: `perform_create` persists the Experiment with
`user=self.request.user`; on update the serializer's declared fields do not
include `user`, so a request body supplying a `user` key cannot change the
owner (nor the id), and an update naming no field leaves every field of the
Experiment unchanged. -/
theorem owner_set_at_create_and_immutable (db : Db) (u : Nat)
    (cp : CreatePayload) (e : Exp) (raw raw2 : RawUpdatePayload) (v : Nat)
    (_hu : raw.user = some v) (_h2u : raw2.user = some v)
    (h2t : raw2.title = none) (h2m : raw2.time_minutes = none)
    (h2p : raw2.price = none) (h2l : raw2.link = none)
    (h2d : raw2.description = none) (h2g : raw2.tags = none)
    (h2i : raw2.ingredients = none) :
    (createExperiment db u cp).1.user = u
    ∧ (updateExperiment db u e (validatePayload raw)).1.user = e.user
    ∧ (updateExperiment db u e (validatePayload raw)).1.id = e.id
    ∧ (updateExperiment db u e (validatePayload raw2)).1 = e := by
  refine ⟨createExperiment_user db u cp,
    (updateExperiment_user_id db u e (validatePayload raw)).1,
    (updateExperiment_user_id db u e (validatePayload raw)).2, ?_⟩
  simp only [updateExperiment, validatePayload, h2t, h2m, h2p, h2l, h2d,
    h2g, h2i, Option.getD]

theorem owner_set_at_create_and_immutable_witness :
    ((RawUpdatePayload.mk (some 7) (some "x") none none none none none none).user
        = some 7
    ∧ (RawUpdatePayload.mk (some 7) none none none none none none none).user
        = some 7)
    ∧ ((createExperiment ⟨[], [], [], 1, 1, 1⟩ 0
          ⟨"Sample", 22, 522, "", "", [], []⟩).1.user = 0
    ∧ (updateExperiment ⟨[], [], [], 1, 1, 1⟩ 0
          ⟨9, 3, "t", 4, 5, "l", "d", [], []⟩
          (validatePayload
            (RawUpdatePayload.mk (some 7) (some "x") none none none none none
              none))).1.user = (Exp.mk 9 3 "t" 4 5 "l" "d" [] []).user
    ∧ (updateExperiment ⟨[], [], [], 1, 1, 1⟩ 0
          ⟨9, 3, "t", 4, 5, "l", "d", [], []⟩
          (validatePayload
            (RawUpdatePayload.mk (some 7) (some "x") none none none none none
              none))).1.id = (Exp.mk 9 3 "t" 4 5 "l" "d" [] []).id
    ∧ (updateExperiment ⟨[], [], [], 1, 1, 1⟩ 0
          ⟨9, 3, "t", 4, 5, "l", "d", [], []⟩
          (validatePayload
            (RawUpdatePayload.mk (some 7) none none none none none none
              none))).1 = Exp.mk 9 3 "t" 4 5 "l" "d" [] []) :=
  ⟨⟨rfl, rfl⟩,
    owner_set_at_create_and_immutable ⟨[], [], [], 1, 1, 1⟩ 0
      ⟨"Sample", 22, 522, "", "", [], []⟩ ⟨9, 3, "t", 4, 5, "l", "d", [], []⟩
      (RawUpdatePayload.mk (some 7) (some "x") none none none none none none)
      (RawUpdatePayload.mk (some 7) none none none none none none none) 7
      rfl rfl rfl rfl rfl rfl rfl rfl rfl⟩

/-! ### Claim C9: list ordering -/

instance : IsTotal Exp (fun a b => b.id ≤ a.id) :=
  ⟨fun a b => Nat.le_total b.id a.id⟩

instance : IsTrans Exp (fun a b => b.id ≤ a.id) :=
  ⟨fun _ _ _ h1 h2 => Nat.le_trans h2 h1⟩

instance : IsTotal Attr (fun a b => b.name ≤ a.name) :=
  ⟨fun a b => le_total b.name a.name⟩

instance : IsTrans Attr (fun a b => b.name ≤ a.name) :=
  ⟨fun _ _ _ h1 h2 => le_trans h2 h1⟩

/-- C9: every authenticated list response is the requester's own rows —
Experiments ordered by descending id, Tags and Ingredients ordered by
descending name: each list is sorted by the reversed order and is a
permutation of the requester-owned rows of its table. -/
theorem lists_ordered_descending (db : Db) (u : Nat) :
    List.Sorted (fun a b : Exp => b.id ≤ a.id) (experimentList db u)
    ∧ (experimentList db u).Perm (db.experiments.filter (fun e => e.user == u))
    ∧ List.Sorted (fun a b : Attr => b.name ≤ a.name) (tagList db u)
    ∧ (tagList db u).Perm (db.tags.filter (fun t => t.user == u))
    ∧ List.Sorted (fun a b : Attr => b.name ≤ a.name) (ingredientList db u)
    ∧ (ingredientList db u).Perm (db.ingredients.filter (fun t => t.user == u)) := by
  unfold experimentList tagList ingredientList
  exact ⟨List.sorted_insertionSort _ _, List.perm_insertionSort _ _,
    List.sorted_insertionSort _ _, List.perm_insertionSort _ _,
    List.sorted_insertionSort _ _, List.perm_insertionSort _ _⟩

/-! ### Claim C3: ownership isolation -/

/-- C3: a record owned by user `A` is invisible to user `B`: it is absent
from `B`'s experiment list (and an `A`-owned tag from `B`'s tag list), and
`B`'s detail, update and delete requests on its id all miss the
ownership-filtered queryset and answer 404 (`none`) exactly as for a
nonexistent id, touching nothing in the store. -/
theorem ownership_isolation (db : Db) (A B : Nat) (e : Exp) (t : Attr)
    (raw : RawUpdatePayload)
    (he : e ∈ db.experiments) (heA : e.user = A)
    (_ht : t ∈ db.tags) (htA : t.user = A)
    (hAB : A ≠ B)
    (hid : ∀ e2 ∈ db.experiments, e2.id = e.id → e2 = e) :
    e ∉ experimentList db B
    ∧ t ∉ tagList db B
    ∧ getObject db B e.id = none
    ∧ updateViaApi db B e.id raw = none
    ∧ destroyExperiment db B e.id = none := by
  have hgo : getObject db B e.id = none := by
    unfold getObject
    rw [List.find?_eq_none]
    intro x hx
    unfold experimentList at hx
    rw [List.mem_insertionSort, List.mem_filter] at hx
    obtain ⟨hxmem, hxB⟩ := hx
    intro hxid
    have hxe : x = e := hid x hxmem (by simpa using hxid)
    subst hxe
    rw [beq_iff_eq] at hxB
    exact hAB (heA ▸ hxB)
  refine ⟨?_, ?_, hgo, ?_, ?_⟩
  · intro hmem
    unfold experimentList at hmem
    rw [List.mem_insertionSort, List.mem_filter] at hmem
    rw [beq_iff_eq] at hmem
    exact hAB (heA ▸ hmem.2)
  · intro hmem
    unfold tagList at hmem
    rw [List.mem_insertionSort, List.mem_filter] at hmem
    rw [beq_iff_eq] at hmem
    exact hAB (htA ▸ hmem.2)
  · unfold updateViaApi
    rw [hgo]
    rfl
  · unfold destroyExperiment
    rw [hgo]
    rfl

theorem ownership_isolation_witness :
    ((Exp.mk 1 0 "s" 1 1 "" "" [] []) ∈
        (Db.mk [Exp.mk 1 0 "s" 1 1 "" "" [] []] [Attr.mk 1 0 "x"] [] 2 2 1).experiments
    ∧ (Attr.mk 1 0 "x") ∈
        (Db.mk [Exp.mk 1 0 "s" 1 1 "" "" [] []] [Attr.mk 1 0 "x"] [] 2 2 1).tags
    ∧ (0 : Nat) ≠ 1)
    ∧ ((Exp.mk 1 0 "s" 1 1 "" "" [] []) ∉
        experimentList (Db.mk [Exp.mk 1 0 "s" 1 1 "" "" [] []] [Attr.mk 1 0 "x"] [] 2 2 1) 1
    ∧ (Attr.mk 1 0 "x") ∉
        tagList (Db.mk [Exp.mk 1 0 "s" 1 1 "" "" [] []] [Attr.mk 1 0 "x"] [] 2 2 1) 1
    ∧ getObject (Db.mk [Exp.mk 1 0 "s" 1 1 "" "" [] []] [Attr.mk 1 0 "x"] [] 2 2 1) 1 1 = none
    ∧ updateViaApi (Db.mk [Exp.mk 1 0 "s" 1 1 "" "" [] []] [Attr.mk 1 0 "x"] [] 2 2 1) 1 1
        (RawUpdatePayload.mk none (some "hack") none none none none none none) = none
    ∧ destroyExperiment (Db.mk [Exp.mk 1 0 "s" 1 1 "" "" [] []] [Attr.mk 1 0 "x"] [] 2 2 1) 1 1
        = none) :=
  ⟨⟨by decide, by decide, by decide⟩,
    ownership_isolation (Db.mk [Exp.mk 1 0 "s" 1 1 "" "" [] []] [Attr.mk 1 0 "x"] [] 2 2 1)
      0 1 (Exp.mk 1 0 "s" 1 1 "" "" [] []) (Attr.mk 1 0 "x")
      (RawUpdatePayload.mk none (some "hack") none none none none none none)
      (by decide) (by decide) (by decide) (by decide) (by decide) (by decide)⟩

/-! ### Claim C5: update semantics for present vs absent attribute lists -/

/-- C5: on update, a present `tags` (resp. `ingredients`) field — even an
empty list — replaces the association set wholesale: afterwards every
associated row belongs to the requester and carries a submitted name (so
every previously associated row with a name outside the submitted list is
gone, i.e. the old associations were cleared first), and every submitted
name is associated; an absent field leaves the association set of its type
untouched. -/
theorem update_attribute_lists (db : Db) (u : Nat) (e : Exp)
    (p q : UpdatePayload) (ts ings : List String)
    (hpt : p.tags = some ts) (hpi : p.ingredients = some ings)
    (hqt : q.tags = none) (hqi : q.ingredients = none) :
    ((updateExperiment db u e p).1.tags.all
        (fun t => t.user == u && decide (t.name ∈ ts))) = true
    ∧ (ts.all (fun n => (updateExperiment db u e p).1.tags.any
        (fun t => t.user == u && t.name == n))) = true
    ∧ ((updateExperiment db u e p).1.ingredients.all
        (fun t => t.user == u && decide (t.name ∈ ings))) = true
    ∧ (ings.all (fun n => (updateExperiment db u e p).1.ingredients.any
        (fun t => t.user == u && t.name == n))) = true
    ∧ (updateExperiment db u e q).1.tags = e.tags
    ∧ (updateExperiment db u e q).1.ingredients = e.ingredients := by
  have htags : (updateExperiment db u e p).1.tags
      = (getOrCreateTags db u ts { e with tags := [] }).1.tags := by
    simp only [updateExperiment, hpt, hpi]
    exact (getOrCreateIngredients_frame u ings
      (getOrCreateTags db u ts { e with tags := [] }).2
      { (getOrCreateTags db u ts { e with tags := [] }).1 with
        ingredients := [] }).2.2.2.2.2.2.2.2.2.2.2
  have hings : (updateExperiment db u e p).1.ingredients
      = (getOrCreateIngredients (getOrCreateTags db u ts { e with tags := [] }).2
          u ings
          { (getOrCreateTags db u ts { e with tags := [] }).1 with
            ingredients := [] }).1.ingredients := by
    simp only [updateExperiment, hpt, hpi]
  refine ⟨?_, ?_, ?_, ?_, ?_, ?_⟩
  · rw [htags, List.all_eq_true]
    intro x hx
    have hprop := getOrCreateTags_sound u ts ts db { e with tags := [] }
      (by intro y hy; exact absurd hy (List.not_mem_nil y))
      (fun n hn => hn) x hx
    simp [hprop.1, hprop.2]
  · rw [List.all_eq_true]
    intro n hn
    obtain ⟨t, hl, hm⟩ := getOrCreateTags_covers u ts db { e with tags := [] } n hn
    have hfin := getOrCreateTags_sound u ts ts db { e with tags := [] }
      (by intro y hy; exact absurd hy (List.not_mem_nil y))
      (fun m hm2 => hm2) t hm
    rw [List.any_eq_true]
    refine ⟨t, ?_, ?_⟩
    · rw [htags]
      exact hm
    · simp [hfin.1, (lookupAttr_user_name hl).2]
  · rw [hings, List.all_eq_true]
    intro x hx
    have hprop := getOrCreateIngredients_sound u ings ings
      (getOrCreateTags db u ts { e with tags := [] }).2
      { (getOrCreateTags db u ts { e with tags := [] }).1 with ingredients := [] }
      (by intro y hy; exact absurd hy (List.not_mem_nil y))
      (fun n hn => hn) x hx
    simp [hprop.1, hprop.2]
  · rw [List.all_eq_true]
    intro n hn
    obtain ⟨t, hl, hm⟩ := getOrCreateIngredients_covers u ings
      (getOrCreateTags db u ts { e with tags := [] }).2
      { (getOrCreateTags db u ts { e with tags := [] }).1 with ingredients := [] }
      n hn
    have hfin := getOrCreateIngredients_sound u ings ings
      (getOrCreateTags db u ts { e with tags := [] }).2
      { (getOrCreateTags db u ts { e with tags := [] }).1 with ingredients := [] }
      (by intro y hy; exact absurd hy (List.not_mem_nil y))
      (fun m hm2 => hm2) t hm
    rw [List.any_eq_true]
    refine ⟨t, ?_, ?_⟩
    · rw [hings]
      exact hm
    · simp [hfin.1, (lookupAttr_user_name hl).2]
  · simp only [updateExperiment, hqt, hqi]
  · simp only [updateExperiment, hqt, hqi]

theorem update_attribute_lists_witness :
    ((UpdatePayload.mk none none none none none (some ["Afternoon"])
        (some ["college"])).tags = some ["Afternoon"]
    ∧ (UpdatePayload.mk none none none none none (some ["Afternoon"])
        (some ["college"])).ingredients = some ["college"]
    ∧ (UpdatePayload.mk (some "New title") none none none none none
        none).tags = none
    ∧ (UpdatePayload.mk (some "New title") none none none none none
        none).ingredients = none)
    ∧ (((updateExperiment
          (Db.mk [Exp.mk 1 0 "t" 1 2 "" "" [Attr.mk 1 0 "Night"] []]
            [Attr.mk 1 0 "Night"] [] 2 2 1) 0
          (Exp.mk 1 0 "t" 1 2 "" "" [Attr.mk 1 0 "Night"] [])
          (UpdatePayload.mk none none none none none (some ["Afternoon"])
            (some ["college"]))).1.tags.all
        (fun t => t.user == 0 && decide (t.name ∈ ["Afternoon"]))) = true
    ∧ ((["Afternoon"].all (fun n => (updateExperiment
          (Db.mk [Exp.mk 1 0 "t" 1 2 "" "" [Attr.mk 1 0 "Night"] []]
            [Attr.mk 1 0 "Night"] [] 2 2 1) 0
          (Exp.mk 1 0 "t" 1 2 "" "" [Attr.mk 1 0 "Night"] [])
          (UpdatePayload.mk none none none none none (some ["Afternoon"])
            (some ["college"]))).1.tags.any
        (fun t => t.user == 0 && t.name == n))) = true)
    ∧ ((updateExperiment
          (Db.mk [Exp.mk 1 0 "t" 1 2 "" "" [Attr.mk 1 0 "Night"] []]
            [Attr.mk 1 0 "Night"] [] 2 2 1) 0
          (Exp.mk 1 0 "t" 1 2 "" "" [Attr.mk 1 0 "Night"] [])
          (UpdatePayload.mk none none none none none (some ["Afternoon"])
            (some ["college"]))).1.ingredients.all
        (fun t => t.user == 0 && decide (t.name ∈ ["college"]))) = true
    ∧ ((["college"].all (fun n => (updateExperiment
          (Db.mk [Exp.mk 1 0 "t" 1 2 "" "" [Attr.mk 1 0 "Night"] []]
            [Attr.mk 1 0 "Night"] [] 2 2 1) 0
          (Exp.mk 1 0 "t" 1 2 "" "" [Attr.mk 1 0 "Night"] [])
          (UpdatePayload.mk none none none none none (some ["Afternoon"])
            (some ["college"]))).1.ingredients.any
        (fun t => t.user == 0 && t.name == n))) = true)
    ∧ (updateExperiment
          (Db.mk [Exp.mk 1 0 "t" 1 2 "" "" [Attr.mk 1 0 "Night"] []]
            [Attr.mk 1 0 "Night"] [] 2 2 1) 0
          (Exp.mk 1 0 "t" 1 2 "" "" [Attr.mk 1 0 "Night"] [])
          (UpdatePayload.mk (some "New title") none none none none none
            none)).1.tags = (Exp.mk 1 0 "t" 1 2 "" "" [Attr.mk 1 0 "Night"] []).tags
    ∧ (updateExperiment
          (Db.mk [Exp.mk 1 0 "t" 1 2 "" "" [Attr.mk 1 0 "Night"] []]
            [Attr.mk 1 0 "Night"] [] 2 2 1) 0
          (Exp.mk 1 0 "t" 1 2 "" "" [Attr.mk 1 0 "Night"] [])
          (UpdatePayload.mk (some "New title") none none none none none
            none)).1.ingredients
        = (Exp.mk 1 0 "t" 1 2 "" "" [Attr.mk 1 0 "Night"] []).ingredients) :=
  ⟨⟨rfl, rfl, rfl, rfl⟩,
    update_attribute_lists
      (Db.mk [Exp.mk 1 0 "t" 1 2 "" "" [Attr.mk 1 0 "Night"] []]
        [Attr.mk 1 0 "Night"] [] 2 2 1) 0
      (Exp.mk 1 0 "t" 1 2 "" "" [Attr.mk 1 0 "Night"] [])
      (UpdatePayload.mk none none none none none (some ["Afternoon"])
        (some ["college"]))
      (UpdatePayload.mk (some "New title") none none none none none none)
      ["Afternoon"] ["college"] rfl rfl rfl rfl⟩

/-! ### Claim C1: the assigned_only filter -/

/-- The store of the repo's own test `test_filter_tags_assighed_to_experiment`
(`test_tags_api.py`): two tags owned by the requester, the first associated
with one experiment, the second associated with none. -/
def assignedOnlyTestDb : Db :=
  { experiments :=
      [⟨1, 0, "tag iCAN", 5, 20, "", "", [⟨1, 0, "Tag test filter 1"⟩], []⟩],
    tags := [⟨1, 0, "Tag test filter 1"⟩, ⟨2, 0, "Tag test filter 2"⟩],
    ingredients := [], nextExpId := 2, nextTagId := 3, nextIngId := 1 }

/-- C1 (code bug): `BaseExperimentAttrViewSet.get_queryset` never consults
the request's query parameters, so a tag list request is answered by
`tagList` whatever value `assigned_only` carries; on the store of the repo's
own test `test_filter_tags_assighed_to_experiment`, the tag associated with
no Experiment is nevertheless returned — the behaviour the claim (and the
repo's test, which asserts that tag absent under `assigned_only=1`)
forbids. -/
theorem unassigned_tag_listed_despite_flag :
    (Attr.mk 2 0 "Tag test filter 2") ∈ tagList assignedOnlyTestDb 0
    ∧ (assignedOnlyTestDb.experiments.all
        (fun e => decide ((Attr.mk 2 0 "Tag test filter 2") ∉ e.tags))) = true := by
  constructor
  · unfold tagList
    rw [List.mem_insertionSort]
    decide
  · decide

end ExperimentApp
